import Mathlib

/-!
Verification of the reliable-multicast chat processes in
`chat_process/chat_process.py` and `chat_process/main.py`.

The Python code is shallowly embedded: each method becomes a pure Lean
function over an explicit state record, with the random draws
(`random.random()`, `random.uniform`) and the current wall-clock time
passed in as inputs.  The wire codec (`helpers/unicast_helper`, an
external collaborator that is not part of this snapshot) is modelled from
the spec: packets are kept as the decoded five-field envelope
`[senderId, messageId, isAck, timestamp, payload]` rather than as bytes.

The `while True` scan loop of `update_holdback_queue` is embedded with an
explicit iteration budget (`fuel`).  Every pass of the loop other than
the last removes at least one entry, so a budget of one more than the
queue length always reaches the loop's exit; `runHBFuel_fuel_irrelevant`
proves the budget immaterial beyond that point, so the fuelled function
agrees with the unbounded loop wherever the loop terminates — and it
always does.
-/

namespace ChatProcess

/-- Holdback-queue entry `(sender, timestamp, message)` as appended by
`unicast_receive` (chat_process.py line 76).  `mid` additionally records
the message id of the packet that created the entry; it is bookkeeping
for the deduplication argument and is never read by the release rule. -/
structure Entry where
  sender : Nat
  ts : List Nat
  msg : String
  mid : Nat
deriving DecidableEq

/-- The per-entry release test of `update_holdback_queue`
(chat_process.py lines 87-94): `should_remove` starts `True` and is
cleared if `v[i] != my_timestamp[i] + 1` at `i == sender`, or
`v[i] > my_timestamp[i]` at any other index, for `i in range(len(v))`. -/
def shouldRemove (V : List Nat) (e : Entry) : Bool :=
  (List.range e.ts.length).all fun i =>
    if i = e.sender then e.ts.getD i 0 = V.getD i 0 + 1
    else e.ts.getD i 0 ≤ V.getD i 0

/-- The release condition as the spec words it: `T[s] == V[s] + 1` and
`T[i] <= V[i]` for every index `i ≠ s` of the timestamp. -/
def releasable (V : List Nat) (e : Entry) : Prop :=
  e.ts.getD e.sender 0 = V.getD e.sender 0 + 1 ∧
    ∀ i < e.ts.length, i ≠ e.sender → e.ts.getD i 0 ≤ V.getD i 0

instance (V : List Nat) (e : Entry) : Decidable (releasable V e) := by
  unfold releasable
  exact inferInstance

/-- The delivery block of `update_holdback_queue` (chat_process.py lines
100-102): for each removed entry, in queue order, increment
`my_timestamp[sender]` by one (the paired call `deliver(sender, message)`
is recorded by keeping the removed entries as the delivery trace). -/
def applyDeliveries (V : List Nat) (removed : List Entry) : List Nat :=
  removed.foldl (fun W e => W.set e.sender (W.getD e.sender 0 + 1)) V

/-- The `while True` loop of `ChatProcess.update_holdback_queue`
(chat_process.py lines 83-107) with an explicit iteration budget,
returning the final vector timestamp, the final holdback queue, and the
delivered entries in delivery order.  Each pass partitions the queue
into kept (`new_holdback_queue`) and removed entries against the current
timestamp, applies the deliveries, and repeats until a pass removes
nothing. -/
def runHBFuel : Nat → List Nat → List Entry → List Nat × List Entry × List Entry
  | 0, V, q => (V, q, [])
  | fuel + 1, V, q =>
    let removed := q.filter fun e => shouldRemove V e
    let newQ := q.filter fun e => !shouldRemove V e
    if removed = [] then
      (V, newQ, [])
    else
      let r := runHBFuel fuel (applyDeliveries V removed) newQ
      (r.1, r.2.1, removed ++ r.2.2)

/-- `ChatProcess.update_holdback_queue` (chat_process.py lines 81-107),
acting on an explicit `(my_timestamp, holdback_queue)` pair; the budget
`q.length + 1` is enough for the loop to reach its exit
(`runHBFuel_fuel_irrelevant`). -/
def update_holdback_queue (V : List Nat) (q : List Entry) :
    List Nat × List Entry × List Entry :=
  runHBFuel (q.length + 1) V q

/-- The states `(my_timestamp, holdback_queue)` at the start of each
evaluation pass of `update_holdback_queue`, the final (nothing-removed)
pass included, with the same iteration budget. -/
def hbPassesFuel : Nat → List Nat → List Entry → List (List Nat × List Entry)
  | 0, _, _ => []
  | fuel + 1, V, q =>
    let removed := q.filter fun e => shouldRemove V e
    let newQ := q.filter fun e => !shouldRemove V e
    if removed = [] then
      [(V, q)]
    else
      (V, q) :: hbPassesFuel fuel (applyDeliveries V removed) newQ

/-- The evaluation passes actually made by `update_holdback_queue`. -/
def hbPasses (V : List Nat) (q : List Entry) : List (List Nat × List Entry) :=
  hbPassesFuel (q.length + 1) V q

/-- One entry of the fault-injecting send queue together with its
destination: the decoded form of
`pack_message([my_id, msg_id, is_ack, timestamp, message])` plus the
`(ip, port)` of the destination process (represented by its id, since
the host table maps ids to addresses bijectively). -/
structure Packet where
  sender : Nat
  mid : Option Nat
  is_ack : Bool
  ts : List Nat
  payload : String
  dest : Nat
deriving DecidableEq

/-- One record of `unack_messages`:
`(destination, msg_id, message, timestamp[:])` (chat_process.py line 51). -/
structure UnackRec where
  dest : Nat
  mid : Nat
  msg : String
  ts : List Nat
deriving DecidableEq

/-- A decoded inbound datagram:
`[sender, message_id, is_ack, message_timestamp, message]`
(chat_process.py line 67).  Decoding is the wire codec's job, modelled
from the spec (`helpers/unicast_helper` is outside this snapshot). -/
structure Msg where
  sender : Nat
  mid : Nat
  is_ack : Bool
  ts : List Nat
  payload : String
deriving DecidableEq

/-- `queue.put` of a `PriorityQueue` keyed by the send time: insertion
into a list kept sorted by ascending release time. -/
def insertPQ (t : ℚ) (p : Packet) : List (ℚ × Packet) → List (ℚ × Packet)
  | [] => [(t, p)]
  | (t', p') :: rest =>
    if t ≤ t' then (t, p) :: (t', p') :: rest else (t', p') :: insertPQ t p rest

/-- Dictionary assignment `d[k] = True` on a dict used as a set of keys. -/
def insertPair (k : Nat × Nat) (d : List (Nat × Nat)) : List (Nat × Nat) :=
  if k ∈ d then d else k :: d

/-- The mutable fields of a `ChatProcess` instance (chat_process.py
lines 16-31).  `num_hosts` is `len(config.config['hosts'])`, equal to
the `num_processes` constructor argument.  `delivered` logs the calls to
`self.deliver(sender, message)` (chat_process.py line 102) as the
released entries in call order. -/
structure ChatState where
  my_id : Nat
  delay_time : ℚ
  drop_rate : ℚ
  num_hosts : Nat
  message_id_counter : Nat
  has_received : List (Nat × Nat)
  has_acknowledged : List (Nat × Nat)
  unack_messages : List UnackRec
  holdback_queue : List Entry
  queue : List (ℚ × Packet)
  my_timestamp : List Nat
  delivered : List Entry
deriving DecidableEq

/-- `ChatProcess.__init__(process_id, delay_time, drop_rate,
num_processes)` (chat_process.py lines 16-31), socket setup aside. -/
def initState (process_id : Nat) (delay_time drop_rate : ℚ)
    (num_processes : Nat) : ChatState :=
  { my_id := process_id
    delay_time := delay_time
    drop_rate := drop_rate
    num_hosts := num_processes
    message_id_counter := 0
    has_received := []
    has_acknowledged := []
    unack_messages := []
    holdback_queue := []
    queue := []
    my_timestamp := List.replicate num_processes 0
    delivered := [] }

/-- `ChatProcess.unicast_send` (chat_process.py lines 41-61).
`dropDraw` is the `random.random()` outcome, `delayDraw` the
`random.uniform(0, 2 * self.delay_time)` outcome, `now` the
`time.time()` reading.  A fresh id is assigned and an unacknowledged
record appended only when the message is not an ack and no id was
supplied; the packet is then dropped when `dropDraw <= drop_rate`,
otherwise enqueued with release time `now + delayDraw`. -/
def unicast_send (st : ChatState) (destination : Nat) (message : String)
    (msg_id : Option Nat) (is_ack : Bool) (timestamp : Option (List Nat))
    (dropDraw delayDraw now : ℚ) : ChatState :=
  let ts := timestamp.getD st.my_timestamp
  let mid := if !is_ack && msg_id.isNone then some (st.message_id_counter + 1) else msg_id
  let st1 :=
    if !is_ack && msg_id.isNone then
      { st with
          message_id_counter := st.message_id_counter + 1
          unack_messages := st.unack_messages
            ++ [⟨destination, st.message_id_counter + 1, message, ts⟩] }
    else st
  if dropDraw ≤ st1.drop_rate then st1
  else
    { st1 with queue :=
        insertPQ (now + delayDraw) ⟨st1.my_id, mid, is_ack, ts, message, destination⟩ st1.queue }

/-- `ChatProcess.unicast_receive` (chat_process.py lines 63-79) on an
already-decoded datagram.  An ack marks `(sender, id)` acknowledged; a
data message is acknowledged back to its sender (an `unicast_send` with
`is_ack=True`, hence subject to the same drop/delay draws), and, when
not yet received, marked received, appended to the holdback queue and
run through `update_holdback_queue`.  Returns the new state and whether
a new message was received. -/
def unicast_receive (st : ChatState) (m : Msg) (dropDraw delayDraw now : ℚ) :
    ChatState × Bool :=
  if m.is_ack then
    ({ st with has_acknowledged := insertPair (m.sender, m.mid) st.has_acknowledged },
      false)
  else
    let st1 := unicast_send st m.sender "" (some m.mid) true none dropDraw delayDraw now
    if (m.sender, m.mid) ∈ st1.has_received then (st1, false)
    else
      let st2 := { st1 with
        has_received := insertPair (m.sender, m.mid) st1.has_received
        holdback_queue := st1.holdback_queue ++ [(⟨m.sender, m.ts, m.payload, m.mid⟩ : Entry)] }
      let r := update_holdback_queue st2.my_timestamp st2.holdback_queue
      ({ st2 with
          my_timestamp := r.1
          holdback_queue := r.2.1
          delivered := st2.delivered ++ r.2.2 }, true)

/-- One iteration of `ChatProcess.message_queue_handler` (chat_process.py
lines 118-126): pop the earliest-release packet; write it to the socket
when its send time has passed (the written packet is returned), else put
it back and sleep. -/
def message_queue_step (st : ChatState) (now : ℚ) : ChatState × Option Packet :=
  match st.queue with
  | [] => (st, none)
  | (send_time, pk) :: rest =>
    if send_time ≤ now then ({ st with queue := rest }, some pk)
    else ({ st with queue := insertPQ send_time pk rest }, none)

/-- `ChatProcess.multicast` (chat_process.py lines 109-112): unicast the
message to every configured host id, each send with its own draws. -/
def multicast (st : ChatState) (message : String) (draws : Nat → ℚ × ℚ)
    (now : ℚ) : ChatState :=
  (List.range st.num_hosts).foldl
    (fun s i => unicast_send s i message none false none (draws i).1 (draws i).2 now) st

/-- One line of `ChatProcess.user_input_handler` (chat_process.py lines
142-147): increment the local vector entry, then multicast. -/
def user_input_step (st : ChatState) (line : String) (draws : Nat → ℚ × ℚ)
    (now : ℚ) : ChatState :=
  let st1 := { st with
    my_timestamp := st.my_timestamp.set st.my_id (st.my_timestamp.getD st.my_id 0 + 1) }
  multicast st1 line draws now

/-- The scan of one `ack_handler` iteration (chat_process.py lines
133-139) over the pending records: unacknowledged records are kept and
resent through `unicast_send` with their recorded id, payload and
timestamp; acknowledged ones are dropped and not resent.  `k` indexes
the draws of the successive resends. -/
def ack_scan (now : ℚ) (draws : Nat → ℚ × ℚ) :
    ChatState → Nat → List UnackRec → ChatState × List UnackRec
  | st, _, [] => (st, [])
  | st, k, r :: rest =>
    if (r.dest, r.mid) ∈ st.has_acknowledged then ack_scan now draws st (k + 1) rest
    else
      let st1 := unicast_send st r.dest r.msg (some r.mid) false (some r.ts)
        (draws k).1 (draws k).2 now
      let s := ack_scan now draws st1 (k + 1) rest
      (s.1, r :: s.2)

/-- One iteration of `ChatProcess.ack_handler` (chat_process.py lines
130-139): scan `unack_messages` and replace it by the kept records. -/
def ack_tick (st : ChatState) (draws : Nat → ℚ × ℚ) (now : ℚ) : ChatState :=
  let s := ack_scan now draws st 0 st.unack_messages
  { s.1 with unack_messages := s.2 }

/-- One scheduling step of any of the four concurrent loops of
`ChatProcess.run`. -/
inductive Op where
  | userInput (line : String) (draws : Nat → ℚ × ℚ) (now : ℚ)
  | recvMsg (m : Msg) (dropDraw delayDraw now : ℚ)
  | retransmit (draws : Nat → ℚ × ℚ) (now : ℚ)
  | drain (now : ℚ)

/-- Effect of one loop iteration on the process state. -/
def stepOp (st : ChatState) : Op → ChatState
  | .userInput line draws now => user_input_step st line draws now
  | .recvMsg m d1 d2 now => (unicast_receive st m d1 d2 now).1
  | .retransmit draws now => ack_tick st draws now
  | .drain now => (message_queue_step st now).1

/-- An arbitrary interleaving of loop iterations. -/
def runOps (st : ChatState) : List Op → ChatState
  | [] => st
  | op :: rest => runOps (stepOp st op) rest

/-- A sequence of inbound datagrams fed to `unicast_receive`, each with
its drop draw, delay draw and clock reading. -/
def runReceives (st : ChatState) : List (Msg × ℚ × ℚ × ℚ) → ChatState
  | [] => st
  | (m, d1, d2, now) :: rest => runReceives (unicast_receive st m d1 d2 now).1 rest

/-- Number of holdback entries carrying the dedup key `p`. -/
def tagCount (p : Nat × Nat) (l : List Entry) : Nat :=
  (l.filter fun e => (e.sender, e.mid) = p).length

/-- The send queue is ordered by ascending release time. -/
def timeSorted (q : List (ℚ × Packet)) : Prop :=
  List.Pairwise (fun a b => a.1 ≤ b.1) q

/-- The deduplication invariant: a `(sender, id)` pair not yet in the
received-set occurs nowhere (neither delivered nor held back); a pair in
the received-set occurs at most once in the delivery log and holdback
queue combined. -/
def recvInv (st : ChatState) : Prop :=
  ∀ p : Nat × Nat,
    (p ∈ st.has_received →
      tagCount p st.delivered + tagCount p st.holdback_queue ≤ 1) ∧
    (p ∉ st.has_received →
      tagCount p st.delivered + tagCount p st.holdback_queue = 0)

/-- The spec's three-process scenario, message "A" from process 0,
stamped `[1,0,0]`. -/
def entryA : Entry :=
  { sender := 0, ts := [1, 0, 0], msg := "A", mid := 2 }

/-- The spec's three-process scenario, message "B" from process 1,
stamped `[1,1,0]`. -/
def entryB : Entry :=
  { sender := 1, ts := [1, 1, 0], msg := "B", mid := 1 }

/-- A state that has already received message 5 from process 1. -/
def dupSt : ChatState :=
  { initState 0 1 0 3 with has_received := [(1, 5)] }

/-- A redelivery of message 5 from process 1. -/
def dupMsg : Msg :=
  { sender := 1, mid := 5, is_ack := false, ts := [1, 0, 0], payload := "hi" }

end ChatProcess

namespace MainPy

/-- The mutable fields of `Main` (main.py lines 11-19, plus the
`drop_rate` set in `run`).  `sent` logs the packets actually written to
the socket by `unicast_send` (main.py line 51), each as
`(my_ID, id, is_ack, message, destination)`. -/
structure MaState where
  my_ID : Nat
  drop_rate : ℚ
  num_hosts : Nat
  message_id : Nat
  has_received : List (Nat × Nat)
  has_acknowledged : List (Nat × Nat)
  unack_messages : List (Nat × Nat × String)
  sent : List (Nat × Nat × Bool × String × Nat)
deriving DecidableEq

/-- `Main.unicast_send` (main.py lines 31-51).  A non-ack send assigns a
fresh id and appends `(self.my_ID, id, message)` — note: the process's
own id, not the destination — to `unack_messages`; the packet is then
dropped when `dropDraw <= drop_rate`, else written to the socket. -/
def unicast_send (st : MaState) (destination : Nat) (message : String)
    (is_ack : Bool) (ack_message_id : Nat) (dropDraw : ℚ) : MaState :=
  let id := if !is_ack then st.message_id + 1 else ack_message_id
  let st1 :=
    if !is_ack then
      { st with
          message_id := st.message_id + 1
          unack_messages := st.unack_messages ++ [(st.my_ID, st.message_id + 1, message)] }
    else st
  if dropDraw ≤ st1.drop_rate then st1
  else { st1 with sent := st1.sent ++ [(st1.my_ID, id, is_ack, message, destination)] }

/-- `Main.unicast_receive` (main.py lines 53-71) on a decoded datagram.
An ack marks `(sender, message_id)` acknowledged and yields no message.
A data message is acknowledged back to the sender; then — as the code
is written — the message is returned only when `(sender, message_id)`
is already in `has_received` (main.py line 67), and a first-time message
falls into the `else` branch, returning `(sender, None)` without
touching `has_received`. -/
def unicast_receive (st : MaState) (sender message_id : Nat) (is_ack : Bool)
    (message : String) (ackDraw : ℚ) : MaState × Nat × Option String :=
  if is_ack then
    ({ st with has_acknowledged := ChatProcess.insertPair (sender, message_id) st.has_acknowledged },
      sender, none)
  else
    let st1 := unicast_send st sender "" true message_id ackDraw
    if (sender, message_id) ∈ st1.has_received then
      ({ st1 with has_received := ChatProcess.insertPair (sender, message_id) st1.has_received },
        sender, some message)
    else (st1, sender, none)

/-- `Main.multicast` (main.py lines 73-76): unicast to every host id. -/
def multicast (st : MaState) (message : String) (draws : Nat → ℚ) : MaState :=
  (List.range st.num_hosts).foldl
    (fun s i => unicast_send s i message false 0 (draws i)) st

/-- Handling of one scanned record inside a `Main.process_ack` iteration
(main.py lines 87-90): an unacknowledged `(dest_id, message_id, message)`
is kept for the new list and its payload is re-multicast — a call to
`self.multicast(message)`, which assigns fresh ids, appends fresh
unacknowledged records, and addresses every host. -/
def process_ack_entry (st : MaState) (e : Nat × Nat × String)
    (draws : Nat → ℚ) : MaState × List (Nat × Nat × String) :=
  if (e.1, e.2.1) ∈ st.has_acknowledged then (st, [])
  else (multicast st e.2.2 draws, [e])

end MainPy

namespace ChatProcess

/-- A list filtered by a predicate and by its negation splits its length. -/
theorem length_filter_add_length_filter_not {α : Type} (p : α → Bool) (l : List α) :
    (l.filter p).length + (l.filter fun a => !p a).length = l.length := by
  induction l with
  | nil => rfl
  | cons a t ih =>
    by_cases ha : p a <;> simp [List.filter_cons, ha] <;> omega

/-- When a pass removes something, the kept part of the queue is
strictly shorter. -/
theorem newQ_length_lt (V : List Nat) (q : List Entry)
    (h : q.filter (fun e => shouldRemove V e) ≠ []) :
    (q.filter fun e => !shouldRemove V e).length < q.length := by
  have hpart := length_filter_add_length_filter_not (fun e => shouldRemove V e) q
  have hne : 0 < (q.filter fun e => shouldRemove V e).length :=
    List.length_pos.mpr h
  omega

/-- Any budget exceeding the queue length gives the same result: the
loop reaches its exit within `q.length + 1` passes. -/
theorem runHBFuel_fuel_irrelevant :
    ∀ (f f' : Nat) (V : List Nat) (q : List Entry), q.length < f → f ≤ f' →
      runHBFuel f V q = runHBFuel f' V q := by
  intro f
  induction f with
  | zero => intro f' V q h; omega
  | succ f ih =>
    intro f' V q hq hf
    obtain ⟨f'', rfl⟩ : ∃ f'', f' = f'' + 1 := ⟨f' - 1, by omega⟩
    show runHBFuel (f + 1) V q = runHBFuel (f'' + 1) V q
    simp only [runHBFuel]
    by_cases hrem : q.filter (fun e => shouldRemove V e) = []
    · simp [hrem]
    · have hlt := newQ_length_lt V q hrem
      simp only [if_neg hrem]
      rw [ih f'' (applyDeliveries V (q.filter fun e => shouldRemove V e))
        (q.filter fun e => !shouldRemove V e) (by omega) (by omega)]

/-- The loop test equals the spec's release condition whenever the
sender index lies inside the timestamp. -/
theorem shouldRemove_iff (V : List Nat) (e : Entry) (hs : e.sender < e.ts.length) :
    shouldRemove V e = true ↔ releasable V e := by
  unfold shouldRemove releasable
  rw [List.all_eq_true]
  constructor
  · intro h
    refine ⟨?_, ?_⟩
    · have := h e.sender (List.mem_range.mpr hs)
      simpa using this
    · intro i hi hne
      have := h i (List.mem_range.mpr hi)
      simpa [if_neg hne] using this
  · rintro ⟨h1, h2⟩ i hi
    rw [List.mem_range] at hi
    by_cases hie : i = e.sender
    · subst hie
      simpa [List.getD] using h1
    · simpa [if_neg hie] using h2 i hi hie

theorem getD_set_self (l : List Nat) (i : Nat) (hi : i < l.length) (v : Nat) :
    (l.set i v).getD i 0 = v := by
  simp [List.getD, List.getElem?_set_self', List.getElem?_eq_getElem hi]

theorem getD_set_ne (l : List Nat) (i j v : Nat) (h : i ≠ j) :
    (l.set i v).getD j 0 = l.getD j 0 := by
  simp [List.getD, List.getElem?_set_ne h]

theorem applyDeliveries_length (V : List Nat) (l : List Entry) :
    (applyDeliveries V l).length = V.length := by
  induction l generalizing V with
  | nil => rfl
  | cons a t ih => simpa [applyDeliveries] using ih (V.set a.sender (V.getD a.sender 0 + 1))

/-- The delivery block adds, at each in-range index, exactly the number
of removed entries whose sender is that index. -/
theorem applyDeliveries_getD (V : List Nat) (l : List Entry) (i : Nat) (hi : i < V.length) :
    (applyDeliveries V l).getD i 0
      = V.getD i 0 + (l.filter fun e => e.sender = i).length := by
  induction l generalizing V with
  | nil => simp [applyDeliveries]
  | cons a t ih =>
    have hlen : (V.set a.sender (V.getD a.sender 0 + 1)).length = V.length := by
      simp
    have step := ih (V.set a.sender (V.getD a.sender 0 + 1)) (by omega)
    by_cases hai : a.sender = i
    · subst hai
      have : (V.set a.sender (V.getD a.sender 0 + 1)).getD a.sender 0
          = V.getD a.sender 0 + 1 := getD_set_self V a.sender hi _
      simp only [applyDeliveries, List.foldl_cons] at step ⊢
      rw [step, this]
      simp [List.filter_cons]
      omega
    · have : (V.set a.sender (V.getD a.sender 0 + 1)).getD i 0 = V.getD i 0 :=
        getD_set_ne V a.sender i _ hai
      simp only [applyDeliveries, List.foldl_cons] at step ⊢
      rw [step, this]
      simp [List.filter_cons, hai]

theorem applyDeliveries_getD_mono (V : List Nat) (l : List Entry) (i : Nat) :
    V.getD i 0 ≤ (applyDeliveries V l).getD i 0 := by
  by_cases hi : i < V.length
  · rw [applyDeliveries_getD V l i hi]; omega
  · have h1 : V.getD i 0 = 0 := List.getD_eq_default _ _ (by omega)
    omega

theorem runHBFuel_V_length (f : Nat) (V : List Nat) (q : List Entry) :
    (runHBFuel f V q).1.length = V.length := by
  induction f generalizing V q with
  | zero => rfl
  | succ f ih =>
    simp only [runHBFuel]
    by_cases hrem : q.filter (fun e => shouldRemove V e) = []
    · simp [hrem]
    · simp only [if_neg hrem]
      rw [ih, applyDeliveries_length]

/-- A pass that removes nothing keeps the queue unchanged. -/
theorem filter_not_of_filter_nil (V : List Nat) (q : List Entry)
    (h : q.filter (fun e => shouldRemove V e) = []) :
    q.filter (fun e => !shouldRemove V e) = q := by
  rw [List.filter_eq_self]
  intro e he
  have := List.filter_eq_nil_iff.mp h e he
  simpa using this

/-- Delivered exactly when releasable at some evaluation pass. -/
theorem runHBFuel_trace_iff (f : Nat) (V : List Nat) (q : List Entry)
    (hq : q.length < f) (hs : ∀ e ∈ q, e.sender < e.ts.length) (e : Entry) :
    e ∈ (runHBFuel f V q).2.2
      ↔ ∃ p ∈ hbPassesFuel f V q, e ∈ p.2 ∧ releasable p.1 e := by
  induction f generalizing V q with
  | zero => omega
  | succ f ih =>
    simp only [runHBFuel, hbPassesFuel]
    by_cases hrem : q.filter (fun e => shouldRemove V e) = []
    · simp only [if_pos hrem]
      constructor
      · intro h; simp at h
      · rintro ⟨p, hp, hep, hrel⟩
        simp at hp
        rcases hp with ⟨rfl, rfl⟩
        have hsr : shouldRemove V e = true :=
          (shouldRemove_iff V e (hs e hep)).mpr hrel
        have : e ∈ q.filter (fun e => shouldRemove V e) :=
          List.mem_filter.mpr ⟨hep, hsr⟩
        rw [hrem] at this
        simp at this
    · simp only [if_neg hrem, List.mem_append, List.mem_cons]
      have hlt := newQ_length_lt V q hrem
      have hs' : ∀ e ∈ q.filter (fun e => !shouldRemove V e), e.sender < e.ts.length :=
        fun e he => hs e (List.mem_filter.mp he).1
      rw [ih _ _ (by omega) hs']
      constructor
      · rintro (h | ⟨p, hp, hep, hrel⟩)
        · have hm := List.mem_filter.mp h
          exact ⟨(V, q), Or.inl rfl, hm.1,
            (shouldRemove_iff V e (hs e hm.1)).mp hm.2⟩
        · exact ⟨p, Or.inr hp, hep, hrel⟩
      · rintro ⟨p, hp | hp, hep, hrel⟩
        · subst hp
          exact Or.inl (List.mem_filter.mpr
            ⟨hep, (shouldRemove_iff V e (hs e hep)).mpr hrel⟩)
        · exact Or.inr ⟨p, hp, hep, hrel⟩

/-- Filtering commutes through the kept/removed split of one pass. -/
theorem filter_split (p : Entry → Bool) (V : List Nat) (q : List Entry) :
    ((q.filter fun e => !shouldRemove V e).filter p).length
      + ((q.filter fun e => shouldRemove V e).filter p).length
      = (q.filter p).length := by
  induction q with
  | nil => rfl
  | cons a t ih =>
    by_cases hp : p a <;> by_cases hsr : shouldRemove V a <;>
      simp [List.filter_cons, hp, hsr, -List.filter_filter] <;> omega

/-- Conservation: for every predicate, the entries of the final queue
and of the delivery trace together are exactly those of the initial
queue. -/
theorem runHBFuel_filter_length (f : Nat) (V : List Nat) (q : List Entry)
    (p : Entry → Bool) :
    ((runHBFuel f V q).2.1.filter p).length + ((runHBFuel f V q).2.2.filter p).length
      = (q.filter p).length := by
  induction f generalizing V q with
  | zero => simp [runHBFuel]
  | succ f ih =>
    simp only [runHBFuel]
    by_cases hrem : q.filter (fun e => shouldRemove V e) = []
    · simp [hrem, filter_not_of_filter_nil V q hrem]
    · simp only [if_neg hrem, List.filter_append, List.length_append]
      have := ih (applyDeliveries V (q.filter fun e => shouldRemove V e))
        (q.filter fun e => !shouldRemove V e)
      have hsplit := filter_split p V q
      omega

/-- The final timestamp adds, at each in-range index, exactly the number
of delivered entries from that sender. -/
theorem runHBFuel_getD (f : Nat) (V : List Nat) (q : List Entry) (i : Nat)
    (hi : i < V.length) :
    (runHBFuel f V q).1.getD i 0
      = V.getD i 0 + ((runHBFuel f V q).2.2.filter fun e => e.sender = i).length := by
  induction f generalizing V q with
  | zero => simp [runHBFuel]
  | succ f ih =>
    simp only [runHBFuel]
    by_cases hrem : q.filter (fun e => shouldRemove V e) = []
    · simp [hrem]
    · simp only [if_neg hrem, List.filter_append, List.length_append]
      have hlen : i < (applyDeliveries V (q.filter fun e => shouldRemove V e)).length := by
        rw [applyDeliveries_length]; omega
      rw [ih (applyDeliveries V (q.filter fun e => shouldRemove V e))
        (q.filter fun e => !shouldRemove V e) hlen]
      rw [applyDeliveries_getD V _ i hi]
      omega

/-- Each entry of the timestamp never decreases across the call. -/
theorem runHBFuel_V_mono (f : Nat) (V : List Nat) (q : List Entry) (i : Nat) :
    V.getD i 0 ≤ (runHBFuel f V q).1.getD i 0 := by
  induction f generalizing V q with
  | zero => simp [runHBFuel]
  | succ f ih =>
    simp only [runHBFuel]
    by_cases hrem : q.filter (fun e => shouldRemove V e) = []
    · simp [hrem]
    · simp only [if_neg hrem]
      exact le_trans (applyDeliveries_getD_mono V _ i)
        (ih (applyDeliveries V (q.filter fun e => shouldRemove V e))
          (q.filter fun e => !shouldRemove V e))

/-- When the call returns, no remaining entry passes the release test
against the final timestamp: the loop stopped at a fixed point. -/
theorem runHBFuel_fixed_point (f : Nat) (V : List Nat) (q : List Entry)
    (hq : q.length < f) :
    ∀ e ∈ (runHBFuel f V q).2.1, shouldRemove (runHBFuel f V q).1 e = false := by
  induction f generalizing V q with
  | zero => omega
  | succ f ih =>
    simp only [runHBFuel]
    by_cases hrem : q.filter (fun e => shouldRemove V e) = []
    · simp only [if_pos hrem]
      intro e he
      have := (List.mem_filter.mp he).2
      simpa using this
    · simp only [if_neg hrem]
      have hlt := newQ_length_lt V q hrem
      exact ih (applyDeliveries V (q.filter fun e => shouldRemove V e))
        (q.filter fun e => !shouldRemove V e) (by omega)

/-- The loop makes at most one pass more than the initial queue length. -/
theorem hbPassesFuel_length_le (f : Nat) (V : List Nat) (q : List Entry) :
    (hbPassesFuel f V q).length ≤ q.length + 1 := by
  induction f generalizing V q with
  | zero => simp [hbPassesFuel]
  | succ f ih =>
    simp only [hbPassesFuel]
    by_cases hrem : q.filter (fun e => shouldRemove V e) = []
    · simp [hrem]
    · simp only [if_neg hrem, List.length_cons]
      have hlt := newQ_length_lt V q hrem
      have := ih (applyDeliveries V (q.filter fun e => shouldRemove V e))
        (q.filter fun e => !shouldRemove V e)
      omega

/-- Membership in the priority queue after an insertion. -/
theorem insertPQ_mem (t : ℚ) (p : Packet) :
    ∀ (q : List (ℚ × Packet)) (tp : ℚ × Packet),
      tp ∈ insertPQ t p q → tp ∈ q ∨ tp = (t, p) := by
  intro q
  induction q with
  | nil =>
    intro tp htp
    simp [insertPQ] at htp
    simp [htp]
  | cons a rest ih =>
    intro tp htp
    rw [insertPQ] at htp
    by_cases hle : t ≤ a.1
    · simp only [hle, if_pos, List.mem_cons] at htp
      rcases htp with rfl | rfl | h
      · exact Or.inr rfl
      · exact Or.inl (List.mem_cons_self _ _)
      · exact Or.inl (List.mem_cons_of_mem _ h)
    · simp only [hle, if_neg, not_false_iff, List.mem_cons] at htp
      rcases htp with rfl | h
      · exact Or.inl (List.mem_cons_self _ _)
      · rcases ih tp h with h' | h'
        · exact Or.inl (List.mem_cons_of_mem _ h')
        · exact Or.inr h'

/-- `unicast_send` never touches the causal-engine or deduplication
state: only the id counter, the unacknowledged list and the send queue
can change. -/
theorem unicast_send_fields (st : ChatState) (d : Nat) (msg : String)
    (mi : Option Nat) (ia : Bool) (tsa : Option (List Nat)) (q1 q2 q3 : ℚ) :
    (unicast_send st d msg mi ia tsa q1 q2 q3).my_timestamp = st.my_timestamp ∧
    (unicast_send st d msg mi ia tsa q1 q2 q3).holdback_queue = st.holdback_queue ∧
    (unicast_send st d msg mi ia tsa q1 q2 q3).delivered = st.delivered ∧
    (unicast_send st d msg mi ia tsa q1 q2 q3).has_received = st.has_received ∧
    (unicast_send st d msg mi ia tsa q1 q2 q3).has_acknowledged = st.has_acknowledged ∧
    (unicast_send st d msg mi ia tsa q1 q2 q3).my_id = st.my_id ∧
    (unicast_send st d msg mi ia tsa q1 q2 q3).num_hosts = st.num_hosts ∧
    (unicast_send st d msg mi ia tsa q1 q2 q3).drop_rate = st.drop_rate ∧
    (unicast_send st d msg mi ia tsa q1 q2 q3).delay_time = st.delay_time := by
  unfold unicast_send
  by_cases h1 : (!ia && mi.isNone) = true <;> simp only [h1, if_pos, if_neg, Bool.not_eq_true,
    if_true, if_false, Bool.false_eq_true] <;> split <;> simp

/-- An ack send (`is_ack=True`) additionally leaves the id counter and
the unacknowledged list unchanged. -/
theorem unicast_send_ack (st : ChatState) (d : Nat) (msg : String)
    (mi : Option Nat) (tsa : Option (List Nat)) (q1 q2 q3 : ℚ) :
    (unicast_send st d msg mi true tsa q1 q2 q3).unack_messages = st.unack_messages ∧
    (unicast_send st d msg mi true tsa q1 q2 q3).message_id_counter
      = st.message_id_counter := by
  unfold unicast_send
  simp only [Bool.not_true, Bool.false_and, Bool.false_eq_true, if_false]
  split <;> simp

/-- A resend (`msg_id` supplied) also leaves the id counter and the
unacknowledged list unchanged. -/
theorem unicast_send_resend (st : ChatState) (d : Nat) (msg : String)
    (mid : Nat) (ia : Bool) (tsa : Option (List Nat)) (q1 q2 q3 : ℚ) :
    (unicast_send st d msg (some mid) ia tsa q1 q2 q3).unack_messages
      = st.unack_messages ∧
    (unicast_send st d msg (some mid) ia tsa q1 q2 q3).message_id_counter
      = st.message_id_counter := by
  unfold unicast_send
  simp only [Option.isNone_some, Bool.and_false, Bool.false_eq_true, if_false]
  split <;> simp

/-- A fresh data send (`is_ack=False`, no id supplied, no explicit
timestamp): the current vector timestamp is copied into both the new
unacknowledged record and the packet, the counter advances by one, and
the queue gains at most that one packet. -/
theorem unicast_send_new (st : ChatState) (d : Nat) (msg : String) (q1 q2 q3 : ℚ) :
    (unicast_send st d msg none false none q1 q2 q3).unack_messages
      = st.unack_messages ++ [⟨d, st.message_id_counter + 1, msg, st.my_timestamp⟩] ∧
    (unicast_send st d msg none false none q1 q2 q3).message_id_counter
      = st.message_id_counter + 1 ∧
    ∀ tp ∈ (unicast_send st d msg none false none q1 q2 q3).queue,
      tp ∈ st.queue
        ∨ (tp.2.ts = st.my_timestamp ∧ tp.2.payload = msg ∧ tp.2.is_ack = false) := by
  unfold unicast_send
  simp only [Option.isNone_none, Bool.not_false, Bool.and_self, if_true, Option.getD]
  constructor
  · split <;> rfl
  constructor
  · split <;> rfl
  · intro tp htp
    split at htp
    · exact Or.inl htp
    · rcases insertPQ_mem _ _ _ _ htp with h | h
      · exact Or.inl h
      · subst h
        exact Or.inr ⟨rfl, rfl, rfl⟩

/-- Invariant of the multicast fold over any list of destination ids:
the vector timestamp is untouched, one unacknowledged record per
destination is appended carrying the current timestamp and payload, and
every queued packet is either pre-existing or carries the current
timestamp and payload as a data packet. -/
theorem multicast_fold (msg : String) (draws : Nat → ℚ × ℚ) (now : ℚ) :
    ∀ (ids : List Nat) (st : ChatState),
      (List.foldl (fun s i =>
          unicast_send s i msg none false none (draws i).1 (draws i).2 now) st ids).my_timestamp
        = st.my_timestamp ∧
      (∃ new,
        (List.foldl (fun s i =>
            unicast_send s i msg none false none (draws i).1 (draws i).2 now) st ids).unack_messages
          = st.unack_messages ++ new ∧
        new.length = ids.length ∧
        ∀ r ∈ new, r.ts = st.my_timestamp ∧ r.msg = msg) ∧
      ∀ tp ∈ (List.foldl (fun s i =>
          unicast_send s i msg none false none (draws i).1 (draws i).2 now) st ids).queue,
        tp ∈ st.queue
          ∨ (tp.2.ts = st.my_timestamp ∧ tp.2.payload = msg ∧ tp.2.is_ack = false) := by
  intro ids
  induction ids with
  | nil =>
    intro st
    exact ⟨rfl, ⟨[], by simp⟩, fun tp htp => Or.inl htp⟩
  | cons i ids ih =>
    intro st
    simp only [List.foldl_cons]
    obtain ⟨hts, ⟨new, hnew, hlen, hmem⟩, hque⟩ :=
      ih (unicast_send st i msg none false none (draws i).1 (draws i).2 now)
    have hf := unicast_send_fields st i msg none false none (draws i).1 (draws i).2 now
    obtain ⟨hn1, hn2, hn3⟩ := unicast_send_new st i msg (draws i).1 (draws i).2 now
    refine ⟨hts.trans hf.1, ⟨⟨i, st.message_id_counter + 1, msg, st.my_timestamp⟩ :: new, ?_, ?_, ?_⟩, ?_⟩
    · rw [hnew, hn1]; simp
    · simp [hlen]
    · intro r hr
      rcases List.mem_cons.mp hr with rfl | hr'
      · exact ⟨rfl, rfl⟩
      · have := hmem r hr'
        rw [hf.1] at this
        exact this
    · intro tp htp
      rcases hque tp htp with h | h
      · rcases hn3 tp h with h' | h'
        · exact Or.inl h'
        · exact Or.inr h'
      · rw [hf.1] at h
        exact Or.inr h

/-- The retransmission scan never touches the causal-engine or
deduplication state. -/
theorem ack_scan_fields (now : ℚ) (draws : Nat → ℚ × ℚ) :
    ∀ (l : List UnackRec) (st : ChatState) (k : Nat),
      (ack_scan now draws st k l).1.my_timestamp = st.my_timestamp ∧
      (ack_scan now draws st k l).1.holdback_queue = st.holdback_queue ∧
      (ack_scan now draws st k l).1.delivered = st.delivered ∧
      (ack_scan now draws st k l).1.has_received = st.has_received := by
  intro l
  induction l with
  | nil => intro st k; exact ⟨rfl, rfl, rfl, rfl⟩
  | cons r rest ih =>
    intro st k
    rw [ack_scan]
    by_cases hm : (r.dest, r.mid) ∈ st.has_acknowledged
    · simpa [hm] using ih st (k + 1)
    · simp only [hm, if_neg, not_false_iff]
      have hf := unicast_send_fields st r.dest r.msg (some r.mid) false (some r.ts)
        (draws k).1 (draws k).2 now
      have hrec := ih (unicast_send st r.dest r.msg (some r.mid) false (some r.ts)
        (draws k).1 (draws k).2 now) (k + 1)
      exact ⟨hrec.1.trans hf.1, hrec.2.1.trans hf.2.1,
        hrec.2.2.1.trans hf.2.2.1, hrec.2.2.2.trans hf.2.2.2.1⟩

/-- Draining a packet never touches anything but the send queue. -/
theorem message_queue_step_fields (st : ChatState) (now : ℚ) :
    (message_queue_step st now).1.my_timestamp = st.my_timestamp ∧
    (message_queue_step st now).1.holdback_queue = st.holdback_queue ∧
    (message_queue_step st now).1.delivered = st.delivered ∧
    (message_queue_step st now).1.has_received = st.has_received := by
  unfold message_queue_step
  split
  · exact ⟨rfl, rfl, rfl, rfl⟩
  · split <;> exact ⟨rfl, rfl, rfl, rfl⟩

/-- Receiving a datagram can only grow each vector-timestamp entry. -/
theorem unicast_receive_V_mono (st : ChatState) (m : Msg) (d1 d2 now : ℚ) (i : Nat) :
    st.my_timestamp.getD i 0 ≤ (unicast_receive st m d1 d2 now).1.my_timestamp.getD i 0 := by
  unfold unicast_receive
  by_cases ha : m.is_ack
  · simp [ha]
  · simp only [ha, if_neg, Bool.false_eq_true, not_false_iff, if_false]
    have hf := unicast_send_fields st m.sender "" (some m.mid) true none d1 d2 now
    split
    · rw [hf.1]
    · show st.my_timestamp.getD i 0 ≤ (update_holdback_queue _ _).1.getD i 0
      rw [update_holdback_queue]
      calc st.my_timestamp.getD i 0
          = (unicast_send st m.sender "" (some m.mid) true none d1 d2 now).my_timestamp.getD i 0 := by
            rw [hf.1]
        _ ≤ _ := runHBFuel_V_mono _ _ _ i

/-- The line handler's effect: the local entry is bumped, the multicast
appends one unacknowledged record per host carrying the new timestamp
and the line, and every new queued packet carries the new timestamp and
the line as a data packet. -/
theorem user_input_step_spec (st : ChatState) (line : String)
    (draws : Nat → ℚ × ℚ) (now : ℚ) :
    (user_input_step st line draws now).my_timestamp
      = st.my_timestamp.set st.my_id (st.my_timestamp.getD st.my_id 0 + 1) ∧
    (∃ new, (user_input_step st line draws now).unack_messages
        = st.unack_messages ++ new ∧
      new.length = st.num_hosts ∧
      ∀ r ∈ new,
        r.ts = st.my_timestamp.set st.my_id (st.my_timestamp.getD st.my_id 0 + 1)
          ∧ r.msg = line) ∧
    ∀ tp ∈ (user_input_step st line draws now).queue,
      tp ∈ st.queue
        ∨ (tp.2.ts = st.my_timestamp.set st.my_id (st.my_timestamp.getD st.my_id 0 + 1)
            ∧ tp.2.payload = line ∧ tp.2.is_ack = false) := by
  simp only [user_input_step, multicast]
  have h := multicast_fold line draws now (List.range st.num_hosts)
    { st with my_timestamp := st.my_timestamp.set st.my_id (st.my_timestamp.getD st.my_id 0 + 1) }
  simpa using h

/-- Every loop iteration can only grow each vector-timestamp entry. -/
theorem stepOp_V_mono (st : ChatState) (op : Op) (i : Nat) :
    st.my_timestamp.getD i 0 ≤ (stepOp st op).my_timestamp.getD i 0 := by
  cases op with
  | userInput line draws now =>
    show st.my_timestamp.getD i 0 ≤ (user_input_step st line draws now).my_timestamp.getD i 0
    rw [(user_input_step_spec st line draws now).1]
    by_cases hii : st.my_id = i
    · subst hii
      by_cases hlt : st.my_id < st.my_timestamp.length
      · rw [getD_set_self _ _ hlt]; omega
      · rw [List.set_eq_of_length_le (by omega)]
    · rw [getD_set_ne _ _ _ _ hii]
  | recvMsg m d1 d2 now => exact unicast_receive_V_mono st m d1 d2 now i
  | retransmit draws now =>
    show st.my_timestamp.getD i 0 ≤ (ack_tick st draws now).my_timestamp.getD i 0
    unfold ack_tick
    rw [(ack_scan_fields now draws st.unack_messages st 0).1]
  | drain now =>
    show st.my_timestamp.getD i 0 ≤ (message_queue_step st now).1.my_timestamp.getD i 0
    rw [(message_queue_step_fields st now).1]

/-- Timestamp monotonicity over any interleaving of loop iterations. -/
theorem runOps_V_mono (ops : List Op) (st : ChatState) (i : Nat) :
    st.my_timestamp.getD i 0 ≤ (runOps st ops).my_timestamp.getD i 0 := by
  induction ops generalizing st with
  | nil => exact le_refl _
  | cons op rest ih =>
    exact le_trans (stepOp_V_mono st op i) (ih (stepOp st op))

/-- Entries of the final queue all come from the initial queue. -/
theorem runHBFuel_queue_subset (f : Nat) (V : List Nat) (q : List Entry) :
    ∀ e ∈ (runHBFuel f V q).2.1, e ∈ q := by
  induction f generalizing V q with
  | zero => intro e he; exact he
  | succ f ih =>
    simp only [runHBFuel]
    by_cases hrem : q.filter (fun e => shouldRemove V e) = []
    · simp only [if_pos hrem]
      intro e he
      exact (List.mem_filter.mp he).1
    · simp only [if_neg hrem]
      intro e he
      exact (List.mem_filter.mp (ih _ _ e he)).1

/-- Insertion keeps the send queue ordered by release time. -/
theorem insertPQ_timeSorted (t : ℚ) (p : Packet) :
    ∀ q : List (ℚ × Packet), timeSorted q → timeSorted (insertPQ t p q) := by
  intro q
  induction q with
  | nil =>
    intro _
    simp [insertPQ, timeSorted]
  | cons a rest ih =>
    intro hs
    rcases List.pairwise_cons.mp hs with ⟨ha, hrest⟩
    rw [insertPQ]
    by_cases hle : t ≤ a.1
    · simp only [hle, if_pos]
      refine List.pairwise_cons.mpr ⟨?_, hs⟩
      intro x hx
      rcases List.mem_cons.mp hx with rfl | hx'
      · exact hle
      · exact le_trans hle (ha x hx')
    · simp only [hle, if_neg, not_false_iff]
      refine List.pairwise_cons.mpr ⟨?_, ih hrest⟩
      intro x hx
      rcases insertPQ_mem t p rest x hx with h | h
      · exact ha x h
      · subst h
        exact le_of_not_le hle

/-- Tag counts add over list concatenation. -/
theorem tagCount_append (p : Nat × Nat) (l1 l2 : List Entry) :
    tagCount p (l1 ++ l2) = tagCount p l1 + tagCount p l2 := by
  simp [tagCount, List.filter_append]

/-- The release loop conserves dedup tags: every tag of the incoming
queue ends up either still queued or delivered, never duplicated. -/
theorem update_holdback_queue_tagCount (V : List Nat) (q : List Entry) (p : Nat × Nat) :
    tagCount p (update_holdback_queue V q).2.1 + tagCount p (update_holdback_queue V q).2.2
      = tagCount p q := by
  exact runHBFuel_filter_length (q.length + 1) V q (fun e => (e.sender, e.mid) = p)

theorem recvInv_initState (process_id : Nat) (dq dr : ℚ) (n : Nat) :
    recvInv (initState process_id dq dr n) := by
  intro p
  constructor <;> intro _ <;> simp [initState, tagCount]

/-- `unicast_receive` preserves the deduplication invariant. -/
theorem recvInv_step (st : ChatState) (m : Msg) (d1 d2 now : ℚ)
    (hinv : recvInv st) : recvInv (unicast_receive st m d1 d2 now).1 := by
  unfold unicast_receive
  by_cases ha : m.is_ack
  · simpa [ha] using hinv
  · simp only [ha, Bool.false_eq_true, if_false, if_neg, not_false_iff]
    have hf := unicast_send_fields st m.sender "" (some m.mid) true none d1 d2 now
    by_cases hmem : (m.sender, m.mid)
        ∈ (unicast_send st m.sender "" (some m.mid) true none d1 d2 now).has_received
    · simp only [hmem, if_pos]
      intro p
      rw [hf.2.1, hf.2.2.1, hf.2.2.2.1]
      exact hinv p
    · simp only [hmem, if_neg, not_false_iff]
      intro p
      dsimp only
      rw [hf.2.2.2.1] at hmem
      rw [hf.1, hf.2.1, hf.2.2.1, hf.2.2.2.1]
      have hcons := update_holdback_queue_tagCount st.my_timestamp
        (st.holdback_queue ++ [(⟨m.sender, m.ts, m.payload, m.mid⟩ : Entry)]) p
      rw [tagCount_append] at hcons
      simp only [insertPair, hmem, if_neg, not_false_iff]
      by_cases hp : p = (m.sender, m.mid)
      · subst hp
        have h0 := (hinv (m.sender, m.mid)).2 hmem
        have h1 : tagCount (m.sender, m.mid)
            [(⟨m.sender, m.ts, m.payload, m.mid⟩ : Entry)] = 1 := by
          simp [tagCount]
        constructor
        · intro _
          rw [tagCount_append]
          omega
        · intro hq
          exact absurd (List.mem_cons_self _ _) hq
      · have h1 : tagCount p [(⟨m.sender, m.ts, m.payload, m.mid⟩ : Entry)] = 0 := by
          simp [tagCount]
          intro h
          exact absurd h.symm hp
        have hmem2 : p ∈ (m.sender, m.mid) :: st.has_received ↔ p ∈ st.has_received := by
          simp [List.mem_cons, hp]
        constructor
        · intro hpin
          rw [tagCount_append]
          have := (hinv p).1 (hmem2.mp hpin)
          omega
        · intro hpout
          rw [tagCount_append]
          have := (hinv p).2 (fun hc => hpout (hmem2.mpr hc))
          omega

/-- The deduplication invariant holds after any inbound sequence. -/
theorem recvInv_runReceives (ms : List (Msg × ℚ × ℚ × ℚ)) (st : ChatState)
    (hinv : recvInv st) : recvInv (runReceives st ms) := by
  induction ms generalizing st with
  | nil => exact hinv
  | cons x rest ih =>
    exact ih _ (recvInv_step st x.1 x.2.1 x.2.2.1 x.2.2.2 hinv)

/-- From any fresh start, over any inbound sequence, each dedup key is
delivered at most once. -/
theorem deliver_at_most_once (pid : Nat) (dq dr : ℚ) (n : Nat)
    (ms : List (Msg × ℚ × ℚ × ℚ)) (pr : Nat × Nat) :
    tagCount pr (runReceives (initState pid dq dr n) ms).delivered ≤ 1 := by
  have hinv := recvInv_runReceives ms _ (recvInv_initState pid dq dr n)
  rcases hinv pr with ⟨h1, h2⟩
  by_cases hm : pr ∈ (runReceives (initState pid dq dr n) ms).has_received
  · have := h1 hm; omega
  · have := h2 hm; omega

end ChatProcess


/-- C1: for every state of the causal delivery engine, an entry is
delivered by a call to `update_holdback_queue` exactly when, at some
evaluation pass of that call, its timestamp `T` satisfies
`T[s] = V[s] + 1` and `T[i] ≤ V[i]` for every other index against that
pass's vector timestamp `V`; each delivery increments `V[s]` by exactly
one (the final timestamp adds the per-sender delivery counts), the
delivery callback receives exactly the removed entries in order, and
each delivered entry is removed from the holdback queue (entries are
conserved between the final queue and the delivery trace). -/
theorem holdback_delivery_characterization (V : List Nat)
    (q : List ChatProcess.Entry)
    (hs : ∀ e ∈ q, e.sender < e.ts.length) :
    (∀ e : ChatProcess.Entry,
      e ∈ (ChatProcess.update_holdback_queue V q).2.2
        ↔ ∃ p ∈ ChatProcess.hbPasses V q,
            e ∈ p.2 ∧ ChatProcess.releasable p.1 e) ∧
    (∀ i < V.length,
      (ChatProcess.update_holdback_queue V q).1.getD i 0
        = V.getD i 0
          + ((ChatProcess.update_holdback_queue V q).2.2.filter
              fun e => e.sender = i).length) ∧
    (∀ e : ChatProcess.Entry,
      ((ChatProcess.update_holdback_queue V q).2.1.filter fun x => x = e).length
        + ((ChatProcess.update_holdback_queue V q).2.2.filter fun x => x = e).length
        = (q.filter fun x => x = e).length) := by
  refine ⟨?_, ?_, ?_⟩
  · intro e
    exact ChatProcess.runHBFuel_trace_iff (q.length + 1) V q (by omega) hs e
  · intro i hi
    exact ChatProcess.runHBFuel_getD (q.length + 1) V q i hi
  · intro e
    exact ChatProcess.runHBFuel_filter_length (q.length + 1) V q _

/-- Witness for C1 at the three-process scenario. -/
theorem holdback_delivery_characterization_witness :
    (∀ e ∈ [ChatProcess.entryB, ChatProcess.entryA], e.sender < e.ts.length) ∧
    ((∀ e : ChatProcess.Entry,
      e ∈ (ChatProcess.update_holdback_queue [0, 0, 0]
            [ChatProcess.entryB, ChatProcess.entryA]).2.2
        ↔ ∃ p ∈ ChatProcess.hbPasses [0, 0, 0]
              [ChatProcess.entryB, ChatProcess.entryA],
            e ∈ p.2 ∧ ChatProcess.releasable p.1 e) ∧
    (∀ i < [0, 0, 0].length,
      (ChatProcess.update_holdback_queue [0, 0, 0]
            [ChatProcess.entryB, ChatProcess.entryA]).1.getD i 0
        = [0, 0, 0].getD i 0
          + ((ChatProcess.update_holdback_queue [0, 0, 0]
                [ChatProcess.entryB, ChatProcess.entryA]).2.2.filter
              fun e => e.sender = i).length) ∧
    (∀ e : ChatProcess.Entry,
      ((ChatProcess.update_holdback_queue [0, 0, 0]
            [ChatProcess.entryB, ChatProcess.entryA]).2.1.filter
          fun x => x = e).length
        + ((ChatProcess.update_holdback_queue [0, 0, 0]
              [ChatProcess.entryB, ChatProcess.entryA]).2.2.filter
            fun x => x = e).length
        = (([ChatProcess.entryB, ChatProcess.entryA].filter
            fun x => x = e)).length)) :=
  ⟨by decide, holdback_delivery_characterization [0, 0, 0]
    [ChatProcess.entryB, ChatProcess.entryA] (by decide)⟩

/-- C2: when `update_holdback_queue` returns, no entry remaining in the
holdback queue is releasable with respect to the final vector
timestamp — the release computation reached a fixed point within the
call. -/
theorem holdback_fixed_point (V : List Nat) (q : List ChatProcess.Entry)
    (hs : ∀ e ∈ q, e.sender < e.ts.length) :
    ∀ e ∈ (ChatProcess.update_holdback_queue V q).2.1,
      ¬ ChatProcess.releasable (ChatProcess.update_holdback_queue V q).1 e := by
  intro e he hrel
  have hsub := ChatProcess.runHBFuel_queue_subset (q.length + 1) V q e he
  have hfix := ChatProcess.runHBFuel_fixed_point (q.length + 1) V q (by omega) e he
  have htrue := (ChatProcess.shouldRemove_iff _ e (hs e hsub)).mpr hrel
  exact absurd (htrue.symm.trans hfix) (by decide)

/-- Witness for C2: a held-back entry stays unreleasable. -/
theorem holdback_fixed_point_witness :
    (∀ e ∈ [ChatProcess.entryB], e.sender < e.ts.length) ∧
    ∀ e ∈ (ChatProcess.update_holdback_queue [0, 0, 0] [ChatProcess.entryB]).2.1,
      ¬ ChatProcess.releasable
          (ChatProcess.update_holdback_queue [0, 0, 0] [ChatProcess.entryB]).1 e :=
  ⟨by decide, holdback_fixed_point [0, 0, 0] [ChatProcess.entryB] (by decide)⟩

/-- C3: with process 2's timestamp `[0,0,0]` and its holdback queue
holding B (`T=[1,1,0]` from sender 1), appending A (`T=[1,0,0]` from
sender 0) and running `update_holdback_queue` delivers A then B in one
call, leaving the queue empty and the timestamp `[1,1,0]`. -/
theorem three_process_scenario :
    ChatProcess.update_holdback_queue [0, 0, 0]
        [ChatProcess.entryB, ChatProcess.entryA]
      = ([1, 1, 0], [], [ChatProcess.entryA, ChatProcess.entryB]) ∧
    (ChatProcess.update_holdback_queue [0, 0, 0]
        [ChatProcess.entryB, ChatProcess.entryA]).2.2.map
          (fun e => (e.sender, e.msg))
      = [(0, "A"), (1, "B")] := by
  constructor <;> decide

/-- C10: `update_holdback_queue` terminates on every finite queue — any
iteration budget of at least the queue length plus one yields the same
result as the canonical budget, and the loop makes at most
`q.length + 1` evaluation passes. -/
theorem holdback_termination (f : Nat) (V : List Nat)
    (q : List ChatProcess.Entry) (hf : q.length + 1 ≤ f) :
    ChatProcess.runHBFuel f V q = ChatProcess.update_holdback_queue V q ∧
    (ChatProcess.hbPasses V q).length ≤ q.length + 1 := by
  constructor
  · exact (ChatProcess.runHBFuel_fuel_irrelevant (q.length + 1) f V q
      (by omega) hf).symm
  · exact ChatProcess.hbPassesFuel_length_le (q.length + 1) V q

/-- Witness for C10 with a generous budget on the scenario queue. -/
theorem holdback_termination_witness :
    [ChatProcess.entryB, ChatProcess.entryA].length + 1 ≤ 7 ∧
    (ChatProcess.runHBFuel 7 [0, 0, 0] [ChatProcess.entryB, ChatProcess.entryA]
        = ChatProcess.update_holdback_queue [0, 0, 0]
            [ChatProcess.entryB, ChatProcess.entryA] ∧
      (ChatProcess.hbPasses [0, 0, 0]
          [ChatProcess.entryB, ChatProcess.entryA]).length
        ≤ [ChatProcess.entryB, ChatProcess.entryA].length + 1) :=
  ⟨by decide, holdback_termination 7 [0, 0, 0]
    [ChatProcess.entryB, ChatProcess.entryA] (by decide)⟩

/-- C4: receiving a data message whose `(sender, messageId)` is already
in the received-set still performs the acknowledgement send correlated
by that id (the result is exactly the ack-send state), invokes no
delivery, appends nothing to the holdback queue, leaves the vector
timestamp and received-set unchanged, and reports no new message; and
over any inbound sequence from a fresh start, each `(sender, messageId)`
key is delivered at most once. -/
theorem duplicate_receive_idempotent (st : ChatProcess.ChatState)
    (m : ChatProcess.Msg) (d1 d2 now : ℚ)
    (hdata : m.is_ack = false)
    (hdup : (m.sender, m.mid) ∈ st.has_received) :
    (ChatProcess.unicast_receive st m d1 d2 now
        = (ChatProcess.unicast_send st m.sender "" (some m.mid) true none d1 d2 now,
            false) ∧
      (ChatProcess.unicast_receive st m d1 d2 now).1.my_timestamp = st.my_timestamp ∧
      (ChatProcess.unicast_receive st m d1 d2 now).1.holdback_queue
        = st.holdback_queue ∧
      (ChatProcess.unicast_receive st m d1 d2 now).1.delivered = st.delivered ∧
      (ChatProcess.unicast_receive st m d1 d2 now).1.has_received
        = st.has_received) ∧
    (∀ (pid : Nat) (dq dr : ℚ) (n : Nat)
        (ms : List (ChatProcess.Msg × ℚ × ℚ × ℚ)) (pr : Nat × Nat),
      ChatProcess.tagCount pr
          (ChatProcess.runReceives (ChatProcess.initState pid dq dr n) ms).delivered
        ≤ 1) := by
  have hf := ChatProcess.unicast_send_fields st m.sender "" (some m.mid) true none
    d1 d2 now
  have heq : ChatProcess.unicast_receive st m d1 d2 now
      = (ChatProcess.unicast_send st m.sender "" (some m.mid) true none d1 d2 now,
          false) := by
    unfold ChatProcess.unicast_receive
    rw [hdata]
    simp only [Bool.false_eq_true, if_false]
    rw [if_pos (by rw [hf.2.2.2.1]; exact hdup)]
  refine ⟨⟨heq, ?_, ?_, ?_, ?_⟩, ?_⟩
  · rw [heq]; exact hf.1
  · rw [heq]; exact hf.2.1
  · rw [heq]; exact hf.2.2.1
  · rw [heq]; exact hf.2.2.2.1
  · intro pid dq dr n ms pr
    exact ChatProcess.deliver_at_most_once pid dq dr n ms pr

/-- Witness for C4 at the concrete redelivery. -/
theorem duplicate_receive_idempotent_witness :
    ((ChatProcess.dupMsg.sender, ChatProcess.dupMsg.mid)
        ∈ ChatProcess.dupSt.has_received) ∧
    ((ChatProcess.unicast_receive ChatProcess.dupSt ChatProcess.dupMsg 1 0 0
        = (ChatProcess.unicast_send ChatProcess.dupSt ChatProcess.dupMsg.sender ""
            (some ChatProcess.dupMsg.mid) true none 1 0 0, false) ∧
      (ChatProcess.unicast_receive ChatProcess.dupSt ChatProcess.dupMsg 1 0 0).1.my_timestamp
        = ChatProcess.dupSt.my_timestamp ∧
      (ChatProcess.unicast_receive ChatProcess.dupSt ChatProcess.dupMsg 1 0 0).1.holdback_queue
        = ChatProcess.dupSt.holdback_queue ∧
      (ChatProcess.unicast_receive ChatProcess.dupSt ChatProcess.dupMsg 1 0 0).1.delivered
        = ChatProcess.dupSt.delivered ∧
      (ChatProcess.unicast_receive ChatProcess.dupSt ChatProcess.dupMsg 1 0 0).1.has_received
        = ChatProcess.dupSt.has_received) ∧
    (∀ (pid : Nat) (dq dr : ℚ) (n : Nat)
        (ms : List (ChatProcess.Msg × ℚ × ℚ × ℚ)) (pr : Nat × Nat),
      ChatProcess.tagCount pr
          (ChatProcess.runReceives (ChatProcess.initState pid dq dr n) ms).delivered
        ≤ 1)) :=
  ⟨by decide, duplicate_receive_idempotent ChatProcess.dupSt ChatProcess.dupMsg 1 0 0
    rfl (by decide)⟩

/-- C5 (main.py lines 63-71): a first-time data message — here message 1
from process 1 arriving at a fresh `Main` state — is acknowledged but
then falls into the `else` branch: it is NOT marked received, NOT
surfaced to the caller (the result carries `none` in place of the
payload), and the received-set stays empty; the membership test on line
67 is inverted.  By contrast, `ChatProcess.unicast_receive`
(chat_process.py lines 63-79) on a first-time data message marks it
received, appends it to the holdback queue, runs the causal release
(here delivering it at once), and reports a new message. -/
theorem main_receive_drops_fresh_message :
    (MainPy.unicast_receive
        { my_ID := 0, drop_rate := 0, num_hosts := 3, message_id := 0,
          has_received := [], has_acknowledged := [], unack_messages := [],
          sent := [] } 1 1 false "hello" 1
      = ({ my_ID := 0, drop_rate := 0, num_hosts := 3, message_id := 0,
            has_received := [], has_acknowledged := [], unack_messages := [],
            sent := [(0, 1, true, "", 1)] }, 1, none)) ∧
    ((ChatProcess.unicast_receive (ChatProcess.initState 2 1 0 3)
        { sender := 0, mid := 1, is_ack := false, ts := [1, 0, 0], payload := "A" }
        1 0 0).2 = true ∧
      (ChatProcess.unicast_receive (ChatProcess.initState 2 1 0 3)
        { sender := 0, mid := 1, is_ack := false, ts := [1, 0, 0], payload := "A" }
        1 0 0).1.has_received = [(0, 1)] ∧
      (ChatProcess.unicast_receive (ChatProcess.initState 2 1 0 3)
        { sender := 0, mid := 1, is_ack := false, ts := [1, 0, 0], payload := "A" }
        1 0 0).1.delivered.map (fun e => (e.sender, e.msg)) = [(0, "A")]) := by
  constructor
  · decide
  · refine ⟨by decide, by decide, by decide⟩

/-- C6 (main.py lines 83-93): on a retransmission tick, an
unacknowledged record `(0, 1, "hi")` is not resent unchanged — instead
`process_ack` calls `multicast`, which assigns three fresh ids (2, 3, 4),
appends three fresh unacknowledged records, and addresses every host
(0, 1 and 2) rather than the record's single destination; no emitted
packet carries the original id 1.  (`ChatProcess.ack_handler`,
chat_process.py lines 128-139, resends unchanged as the claim states.) -/
theorem main_process_ack_remulticasts :
    (MainPy.process_ack_entry
        { my_ID := 0, drop_rate := 0, num_hosts := 3, message_id := 1,
          has_received := [], has_acknowledged := [],
          unack_messages := [(0, 1, "hi")], sent := [] }
        (0, 1, "hi") (fun _ => 1)
      = ({ my_ID := 0, drop_rate := 0, num_hosts := 3, message_id := 4,
            has_received := [], has_acknowledged := [],
            unack_messages := [(0, 1, "hi"), (0, 2, "hi"), (0, 3, "hi"), (0, 4, "hi")],
            sent := [(0, 2, false, "hi", 0), (0, 3, false, "hi", 1),
              (0, 4, false, "hi", 2)] },
          [(0, 1, "hi")])) ∧
    (∀ pk ∈ (MainPy.process_ack_entry
        { my_ID := 0, drop_rate := 0, num_hosts := 3, message_id := 1,
          has_received := [], has_acknowledged := [],
          unack_messages := [(0, 1, "hi")], sent := [] }
        (0, 1, "hi") (fun _ => 1)).1.sent, pk.2.1 ≠ 1) := by
  constructor
  · decide
  · decide

/-- C7: with `drop_rate = 1.0` every drop draw (a `random.random()`
outcome, in `[0, 1)`) discards the packet before queueing, so the send
queue is unchanged; a non-dropped packet is enqueued with release time
`now + d` for the delay draw `d` in `[0, 2 × delay_time]`, into a
structure whose insertions preserve release-time order; and the drain
loop emits a packet only when its release time has passed. -/
theorem fault_injecting_send_queue :
    (∀ (st : ChatProcess.ChatState) (dest : Nat) (msg : String)
        (mi : Option Nat) (ia : Bool) (tsa : Option (List Nat)) (d1 d2 now : ℚ),
      st.drop_rate = 1 → 0 ≤ d1 → d1 < 1 →
        (ChatProcess.unicast_send st dest msg mi ia tsa d1 d2 now).queue
          = st.queue) ∧
    (∀ (st : ChatProcess.ChatState) (dest : Nat) (msg : String)
        (mi : Option Nat) (ia : Bool) (tsa : Option (List Nat)) (d1 d2 now : ℚ),
      st.drop_rate < d1 → 0 ≤ d2 → d2 ≤ 2 * st.delay_time →
        ∃ d : ℚ, 0 ≤ d ∧ d ≤ 2 * st.delay_time ∧
          ∃ pk : ChatProcess.Packet,
            (ChatProcess.unicast_send st dest msg mi ia tsa d1 d2 now).queue
              = ChatProcess.insertPQ (now + d) pk st.queue) ∧
    (∀ (t : ℚ) (p : ChatProcess.Packet) (q : List (ℚ × ChatProcess.Packet)),
      ChatProcess.timeSorted q → ChatProcess.timeSorted (ChatProcess.insertPQ t p q)) ∧
    (∀ (st : ChatProcess.ChatState) (now : ℚ) (st' : ChatProcess.ChatState)
        (pk : ChatProcess.Packet),
      ChatProcess.message_queue_step st now = (st', some pk) →
        ∃ (t : ℚ) (rest : List (ℚ × ChatProcess.Packet)),
          st.queue = (t, pk) :: rest ∧ t ≤ now) := by
  refine ⟨?_, ?_, ?_, ?_⟩
  · intro st dest msg mi ia tsa d1 d2 now hrate h0 h1
    have hle : d1 ≤ st.drop_rate := by rw [hrate]; exact le_of_lt h1
    unfold ChatProcess.unicast_send
    dsimp only
    by_cases hc : (!ia && mi.isNone) = true
    · rw [if_pos hc]
      dsimp only
      rw [if_pos hle]
    · rw [if_neg hc]
      rw [if_pos hle]
  · intro st dest msg mi ia tsa d1 d2 now hlt h2a h2b
    refine ⟨d2, h2a, h2b, ?_⟩
    have hgt : ¬ d1 ≤ st.drop_rate := not_le.mpr hlt
    unfold ChatProcess.unicast_send
    dsimp only
    by_cases hc : (!ia && mi.isNone) = true
    · rw [if_pos hc]
      dsimp only
      rw [if_neg hgt]
      exact ⟨_, rfl⟩
    · rw [if_neg hc]
      rw [if_neg hgt]
      exact ⟨_, rfl⟩
  · exact ChatProcess.insertPQ_timeSorted
  · intro st now st' pk h
    unfold ChatProcess.message_queue_step at h
    rcases hq : st.queue with _ | ⟨⟨t, p⟩, rest⟩
    · rw [hq] at h
      simp at h
    · rw [hq] at h
      dsimp only at h
      by_cases ht : t ≤ now
      · rw [if_pos ht] at h
        have hp : p = pk := Option.some.inj (Prod.ext_iff.mp h).2
        refine ⟨t, rest, ?_, ht⟩
        rw [← hp]
      · rw [if_neg ht] at h
        exact absurd (Prod.ext_iff.mp h).2 (by simp)

/-- Witness for C7 at concrete draws and a concrete initial state. -/
theorem fault_injecting_send_queue_witness :
    (((ChatProcess.initState 0 1 1 3).drop_rate = 1 ∧ (0 : ℚ) ≤ 0 ∧ (0 : ℚ) < 1) ∧
      (ChatProcess.unicast_send (ChatProcess.initState 0 1 1 3) 1 "x" none false none
          0 0 0).queue = (ChatProcess.initState 0 1 1 3).queue) ∧
    (((ChatProcess.initState 0 1 0 3).drop_rate < 1 ∧ (0 : ℚ) ≤ 2 ∧
        (2 : ℚ) ≤ 2 * (ChatProcess.initState 0 1 0 3).delay_time) ∧
      ∃ d : ℚ, 0 ≤ d ∧ d ≤ 2 * (ChatProcess.initState 0 1 0 3).delay_time ∧
        ∃ pk : ChatProcess.Packet,
          (ChatProcess.unicast_send (ChatProcess.initState 0 1 0 3) 1 "x" none false
              none 1 2 0).queue
            = ChatProcess.insertPQ (0 + d) pk (ChatProcess.initState 0 1 0 3).queue) :=
  ⟨⟨⟨by decide, by decide, by decide⟩,
      fault_injecting_send_queue.1 (ChatProcess.initState 0 1 1 3) 1 "x" none false
        none 0 0 0 (by decide) (by decide) (by decide)⟩,
    ⟨⟨by decide, by decide, by simp [ChatProcess.initState]⟩,
      fault_injecting_send_queue.2.1 (ChatProcess.initState 0 1 0 3) 1 "x" none false
        none 1 2 0 (by decide) (by decide) (by simp [ChatProcess.initState])⟩⟩

/-- C8: over any interleaving of the four loops (line input, receive,
retransmission tick, queue drain), every entry of the vector timestamp
is non-decreasing; moreover each mutation point increments by exactly
one — the input stamp adds one to the local entry, and the release path
adds to each entry exactly the number of entries delivered from that
sender. -/
theorem vector_timestamp_monotone :
    (∀ (ops : List ChatProcess.Op) (st : ChatProcess.ChatState) (i : Nat),
      st.my_timestamp.getD i 0 ≤ (ChatProcess.runOps st ops).my_timestamp.getD i 0) ∧
    (∀ (st : ChatProcess.ChatState) (line : String) (draws : Nat → ℚ × ℚ) (now : ℚ),
      st.my_id < st.my_timestamp.length →
        (ChatProcess.user_input_step st line draws now).my_timestamp.getD st.my_id 0
          = st.my_timestamp.getD st.my_id 0 + 1) ∧
    (∀ (V : List Nat) (q : List ChatProcess.Entry) (i : Nat), i < V.length →
      (ChatProcess.update_holdback_queue V q).1.getD i 0
        = V.getD i 0 + ((ChatProcess.update_holdback_queue V q).2.2.filter
            fun e => e.sender = i).length) := by
  refine ⟨ChatProcess.runOps_V_mono, ?_, ?_⟩
  · intro st line draws now h
    rw [(ChatProcess.user_input_step_spec st line draws now).1]
    exact ChatProcess.getD_set_self _ _ h _
  · intro V q i hi
    exact ChatProcess.runHBFuel_getD (q.length + 1) V q i hi

/-- Witness for C8 at a drain step, an input stamp and a release. -/
theorem vector_timestamp_monotone_witness :
    ((ChatProcess.initState 0 1 0 3).my_timestamp.getD 0 0
      ≤ (ChatProcess.runOps (ChatProcess.initState 0 1 0 3)
          [ChatProcess.Op.drain 0]).my_timestamp.getD 0 0) ∧
    ((ChatProcess.initState 0 1 0 3).my_id
        < (ChatProcess.initState 0 1 0 3).my_timestamp.length ∧
      (ChatProcess.user_input_step (ChatProcess.initState 0 1 0 3) "hello"
          (fun _ => (1, 0)) 0).my_timestamp.getD
            (ChatProcess.initState 0 1 0 3).my_id 0
        = (ChatProcess.initState 0 1 0 3).my_timestamp.getD
            (ChatProcess.initState 0 1 0 3).my_id 0 + 1) ∧
    ((0 : Nat) < [0, 0, 0].length ∧
      (ChatProcess.update_holdback_queue [0, 0, 0]
          [ChatProcess.entryB, ChatProcess.entryA]).1.getD 0 0
        = [0, 0, 0].getD 0 0
          + ((ChatProcess.update_holdback_queue [0, 0, 0]
              [ChatProcess.entryB, ChatProcess.entryA]).2.2.filter
                fun e => e.sender = 0).length) :=
  ⟨vector_timestamp_monotone.1 [ChatProcess.Op.drain 0]
      (ChatProcess.initState 0 1 0 3) 0,
    ⟨by decide, vector_timestamp_monotone.2.1 (ChatProcess.initState 0 1 0 3)
      "hello" (fun _ => (1, 0)) 0 (by decide)⟩,
    ⟨by decide, vector_timestamp_monotone.2.2 [0, 0, 0]
      [ChatProcess.entryB, ChatProcess.entryA] 0 (by decide)⟩⟩

/-- C9: on a locally originated line, the local vector entry is
incremented by exactly one before the message enters the unicast send
path, and every copy of the multicast — each appended unacknowledged
record and each newly queued packet — carries a copy of the incremented
timestamp. -/
theorem outgoing_stamping (st : ChatProcess.ChatState) (line : String)
    (draws : Nat → ℚ × ℚ) (now : ℚ)
    (h : st.my_id < st.my_timestamp.length) :
    (ChatProcess.user_input_step st line draws now).my_timestamp
        = st.my_timestamp.set st.my_id (st.my_timestamp.getD st.my_id 0 + 1) ∧
    (ChatProcess.user_input_step st line draws now).my_timestamp.getD st.my_id 0
        = st.my_timestamp.getD st.my_id 0 + 1 ∧
    (∃ new, (ChatProcess.user_input_step st line draws now).unack_messages
        = st.unack_messages ++ new ∧
      new.length = st.num_hosts ∧
      ∀ r ∈ new,
        r.ts = (ChatProcess.user_input_step st line draws now).my_timestamp
          ∧ r.msg = line) ∧
    ∀ tp ∈ (ChatProcess.user_input_step st line draws now).queue,
      tp ∈ st.queue
        ∨ (tp.2.ts = (ChatProcess.user_input_step st line draws now).my_timestamp
            ∧ tp.2.payload = line ∧ tp.2.is_ack = false) := by
  obtain ⟨h1, h2, h3⟩ := ChatProcess.user_input_step_spec st line draws now
  refine ⟨h1, ?_, ?_, ?_⟩
  · rw [h1]
    exact ChatProcess.getD_set_self _ _ h _
  · obtain ⟨new, hn, hl, hm⟩ := h2
    refine ⟨new, hn, hl, fun r hr => ?_⟩
    rw [h1]
    exact hm r hr
  · intro tp htp
    rcases h3 tp htp with hh | hh
    · exact Or.inl hh
    · refine Or.inr ⟨?_, hh.2⟩
      rw [h1]
      exact hh.1

/-- Witness for C9 at a fresh three-process state. -/
theorem outgoing_stamping_witness :
    ((ChatProcess.initState 1 1 0 3).my_id
        < (ChatProcess.initState 1 1 0 3).my_timestamp.length) ∧
    ((ChatProcess.user_input_step (ChatProcess.initState 1 1 0 3) "x"
          (fun _ => (1, 0)) 0).my_timestamp
        = (ChatProcess.initState 1 1 0 3).my_timestamp.set
            (ChatProcess.initState 1 1 0 3).my_id
            ((ChatProcess.initState 1 1 0 3).my_timestamp.getD
              (ChatProcess.initState 1 1 0 3).my_id 0 + 1) ∧
      (ChatProcess.user_input_step (ChatProcess.initState 1 1 0 3) "x"
          (fun _ => (1, 0)) 0).my_timestamp.getD
            (ChatProcess.initState 1 1 0 3).my_id 0
        = (ChatProcess.initState 1 1 0 3).my_timestamp.getD
            (ChatProcess.initState 1 1 0 3).my_id 0 + 1 ∧
      (∃ new, (ChatProcess.user_input_step (ChatProcess.initState 1 1 0 3) "x"
            (fun _ => (1, 0)) 0).unack_messages
          = (ChatProcess.initState 1 1 0 3).unack_messages ++ new ∧
        new.length = (ChatProcess.initState 1 1 0 3).num_hosts ∧
        ∀ r ∈ new,
          r.ts = (ChatProcess.user_input_step (ChatProcess.initState 1 1 0 3) "x"
              (fun _ => (1, 0)) 0).my_timestamp
            ∧ r.msg = "x") ∧
      ∀ tp ∈ (ChatProcess.user_input_step (ChatProcess.initState 1 1 0 3) "x"
          (fun _ => (1, 0)) 0).queue,
        tp ∈ (ChatProcess.initState 1 1 0 3).queue
          ∨ (tp.2.ts = (ChatProcess.user_input_step (ChatProcess.initState 1 1 0 3)
                "x" (fun _ => (1, 0)) 0).my_timestamp
              ∧ tp.2.payload = "x" ∧ tp.2.is_ack = false)) :=
  ⟨by decide, outgoing_stamping (ChatProcess.initState 1 1 0 3) "x"
    (fun _ => (1, 0)) 0 (by decide)⟩
